import Mathlib

/-!
Verification of the Echo task-execution engine (CodeEditorLand/Echo).

This file shallowly embeds the Action/Plan/Queue/Worker/Retry subsystem:

* `Echo.Json` models `serde_json::Value` (floating-point numbers are out of
  scope; integral numbers are modelled as `Int`).
* `Echo.Vector` models `Source/Struct/Sequence/Vector.rs` (the metadata store,
  a `DashMap<String, Value>` modelled as an association list with
  overwrite-on-insert).
* `Echo.Formality` models the registry `Source/Struct/Sequence/Plan/Formality.rs`.
* `Echo.Action` and `Echo.ExecuteFuel` model the action execution pipeline of
  `Source/Struct/Sequence/Action.rs` (the dedup'd Sequence core).
* `Echo.QueueDraft` models the earlier monolithic draft `Source/Queue.rs`,
  whose `Action::Execute` additionally performs the `CommandingOfficer`
  license check and uses panicking `unwrap()` calls (panics are modelled as
  `Option.none`).
* `Echo.Production` models the FIFO queue `Source/Struct/Sequence/Production.rs`;
  `Echo.Work` models the `Vec`-backed queue `Source/Struct/Job/Work.rs`.
* `Echo.AgainAux`/`Echo.Again` model the retry wrapper `Struct::Again` of
  `Source/Struct/Sequence.rs` (identical to `ActionProcessor::ExecuteWithRetry`
  in `Source/Queue.rs`).

Concurrency is out of scope: a `Signal<T>` cell is embedded as the value it
holds while the modelled operation runs, and `tokio::time::sleep` is embedded
by recording the requested duration (in whole seconds) instead of suspending.
-/

namespace Echo

/-- `serde_json::Value`, restricted to the shapes the engine manipulates
(null, booleans, integral numbers, strings, arrays, objects). -/
inductive Json where
  | null : Json
  | bool (b : Bool) : Json
  | num (n : Int) : Json
  | str (s : String) : Json
  | arr (elems : List Json) : Json
  | obj (fields : List (String × Json)) : Json

/-- `Value::as_str`: `Some` exactly on JSON strings. -/
def Json.asStr : Json → Option String
  | .str s => some s
  | _ => none

/-- `Value::as_u64`: `Some` exactly on integral numbers representable as `u64`. -/
def Json.asU64 : Json → Option Nat
  | .num n => if 0 ≤ n ∧ n < 2 ^ 64 then some n.toNat else none
  | _ => none

/-- `Value::as_array`: `Some` exactly on JSON arrays. -/
def Json.asArray : Json → Option (List Json)
  | .arr elems => some elems
  | _ => none

/-- `Value::get(key)`: field lookup, defined (only) on JSON objects. -/
def Json.get : Json → String → Option Json
  | .obj fields, key => fields.lookup key
  | _, _ => none

/-- Insertion into a string-keyed map (`DashMap::insert` / `HashMap::insert`):
overwrites the entry for the key when present, appends otherwise. -/
def insertA {α : Type} (k : String) (v : α) : List (String × α) → List (String × α)
  | [] => [(k, v)]
  | (k', v') :: rest => if k = k' then (k, v) :: rest else (k', v') :: insertA k v rest

/-- `Enum::Sequence::Action::Error` (`Source/Enum/Sequence/Action/Error.rs`),
identical to `ActionError` in `Source/Queue.rs`. -/
inductive Error where
  | InvalidLicense (msg : String) : Error
  | ExecutionError (msg : String) : Error
  | RoutingError (msg : String) : Error
  | CancellationError (msg : String) : Error
deriving DecidableEq

/-- The metadata store `Source/Struct/Sequence/Vector.rs`: a string-keyed map
of JSON values (`DashMap<String, serde_json::Value>`). -/
structure Vector where
  Entry : List (String × Json)

/-- `Vector::New`. -/
def Vector.New : Vector := ⟨[]⟩

/-- `Vector::Insert` (`DashMap::insert`, overwriting). -/
def Vector.Insert (m : Vector) (k : String) (v : Json) : Vector :=
  ⟨insertA k v m.Entry⟩

/-- `Vector::Get` (`DashMap::get`, cloning the value out). -/
def Vector.Get (m : Vector) (k : String) : Option Json :=
  m.Entry.lookup k

/-- Modelled from the spec: the file `Source/Struct/Sequence/Action/Signature.rs`
is declared (`pub mod Signature;`) but absent from the sources. Per the spec's
registry build surface — `AddSignature(name, inputTypeNames[], outputTypeName)` —
and matching `ActionSignature` in `Source/Queue.rs`, a signature carries a name,
declared input type names, and an output type name. -/
structure Signature where
  Name : String
  InputTypes : List String
  OutputType : String

/-- The type of a registered operation: `Vec<Value> -> Result<Value, Error>`
(the boxed async closure stored by the registry, with the future already
run to its result). -/
def OpFn : Type := List Json → Except Error Json

/-- The registry `Source/Struct/Sequence/Plan/Formality.rs`: name → signature
and name → function maps (`DashMap`s modelled as association lists). -/
structure Formality where
  Signature : List (String × Signature)
  Function : List (String × OpFn)

/-- `Formality::New`. -/
def Formality.New : Formality := ⟨[], []⟩

/-- `Formality::Sign`: inserts/overwrites the signature under its name. -/
def Formality.Sign (f : Formality) (sig : Echo.Signature) : Formality :=
  { f with Signature := insertA sig.Name sig f.Signature }

/-- `Formality::Add`: fails (returning the error string, registry unchanged)
when no signature exists for the name; otherwise inserts the function,
overwriting any previous one. The pair returns the registry state after the
call (mirroring `&mut self`) together with the error, if any. -/
def Formality.Add (f : Formality) (name : String) (fn : OpFn) :
    Formality × Option String :=
  if (f.Signature.lookup name).isNone then
    (f, some ("No signature found for function: " ++ name))
  else
    ({ f with Function := insertA name fn f.Function }, none)

/-- `Formality::Remove`: looks the function up (despite the name, `DashMap::get`;
nothing is removed). -/
def Formality.Remove (f : Formality) (name : String) : Option OpFn :=
  f.Function.lookup name

/-- A hook (`crate::Type::Sequence::Action::Cycle`; the `Type` module file for
it is absent from the sources, but `Source/Queue.rs` defines the same table as
`type Hook = fn() -> Result<(), ActionError>`): a zero-argument fallible
callback, embedded as the result it produces. -/
def Cycle : Type := Except Error Unit

/-- The execution context `Source/Struct/Sequence/Life.rs`. `Span` is the hook
table and `Fate` the configuration (only the single integer setting
`max_retries` is ever consumed, so `Fate` is embedded as the value of that
setting when present and parsable). The `Cache` field (write-only) and the
`Karma` named-queue map are not read by any embedded operation and are omitted. -/
structure Life where
  Span : List (String × Cycle)
  Fate : Option Int

/-- The action `Source/Struct/Sequence/Action.rs`: metadata, typed payload,
license signal (embedded as the boolean it holds during execution), and the
registry it was built against. -/
structure Action (T : Type) where
  Metadata : Vector
  Content : T
  LicenseSignal : Bool
  Plan : Formality

/-- `Struct::New`: stamps `ActionType` and `License` metadata and a `true`
license signal. -/
def Action.New (actionType : String) (content : T) (plan : Formality) : Action T :=
  { Metadata := (Vector.New.Insert "ActionType" (Json.str actionType)).Insert
      "License" (Json.str "valid")
    Content := content
    LicenseSignal := true
    Plan := plan }

/-- `Struct::WithMetadata`. -/
def Action.WithMetadata (a : Action T) (key : String) (v : Json) : Action T :=
  { a with Metadata := a.Metadata.Insert key v }

/-- `Struct::CheckLicense`: the Sequence core checks only the action's own
license signal. -/
def CheckLicense (a : Action T) : Except Error Unit :=
  if !a.LicenseSignal then
    .error (.InvalidLicense "Invalid action license")
  else
    .ok ()

/-- `Struct::HandleDelay`: when `Delay` metadata is present, sleeps
`Delay.as_u64().unwrap_or(0)` seconds; never fails. Returns the result
together with the requested sleep duration in seconds. -/
def HandleDelay (m : Vector) : Except Error Unit × Nat :=
  match m.Get "Delay" with
  | none => (.ok (), 0)
  | some d => (.ok (), d.asU64.getD 0)

/-- The loop body of `Struct::ExecuteHooks`: each array element is coerced with
`as_str().unwrap_or("")` and looked up in the hook table; missing names are
skipped; a failing hook aborts. Returns the result together with the trace of
hook names actually invoked, in invocation order. -/
def RunHooks (span : List (String × Cycle)) : List Json → Except Error Unit × List String
  | [] => (.ok (), [])
  | h :: rest =>
    match span.lookup (h.asStr.getD "") with
    | none => RunHooks span rest
    | some r =>
      match r with
      | .error e => (.error e, [h.asStr.getD ""])
      | .ok _ =>
        let tail := RunHooks span rest
        (tail.1, h.asStr.getD "" :: tail.2)

/-- `Struct::ExecuteHooks`: when `Hooks` metadata is present, iterates over
`Hooks.as_array().unwrap_or(&Vec::new())`. Returns the result together with
the trace of invoked hook names. -/
def ExecuteHooksT (m : Vector) (ctx : Life) : Except Error Unit × List String :=
  match m.Get "Hooks" with
  | none => (.ok (), [])
  | some hooks => RunHooks ctx.Span (hooks.asArray.getD [])

/-- `Struct::Argument`: the reference behavior supplies an empty argument list. -/
def Argument : Except Error (List Json) := .ok []

/-- `Struct::Result`: the reference behavior discards the function's result. -/
def ResultFn (_v : Json) : Except Error Unit := .ok ()

/-- `Struct::ExecuteFunction`: dispatches `ActionType` through the registry;
a missing function is an `ExecutionError` naming the action type. -/
def ExecuteFunction (a : Action T) (actionType : String) : Except Error Unit :=
  match a.Plan.Remove actionType with
  | some fn =>
    match Argument with
    | .error e => .error e
    | .ok args =>
      match fn args with
      | .error e => .error e
      | .ok v => ResultFn v
  | none => .error (.ExecutionError ("No function found for action type: " ++ actionType))

/-- Modelled from the spec: the `Deserialize` implementation for
`Struct<T>` (`Source/Struct/Sequence/Action.rs` lines 18–25) is
`unimplemented!()` in the source, so `serde_json::from_value` cannot be read
off the code. Per the spec (§4.2 step 6: `NextAction` "is deserialized into an
Action<T> of the *same* payload type"), deserialization is embedded as an
abstract parse function of this type; the pipeline is parameterized over it. -/
def ParseNext (T : Type) : Type := Json → Except String (Action T)

/-- `Struct::Execute` of `Source/Struct/Sequence/Action.rs`: resolve
`ActionType`, `CheckLicense`, `HandleDelay`, `ExecuteHooks`,
`ExecuteFunction`, then `HandleNextAction` (which recursively executes the
parsed chained action with the same context, wrapping parse failures in
`ExecutionError`). The chaining recursion is unbounded in the source; `fuel`
bounds it here, `none` marking fuel exhaustion. -/
def ExecuteFuel (parse : ParseNext T) : Nat → Action T → Life → Option (Except Error Unit)
  | 0, _, _ => none
  | fuel + 1, a, ctx =>
    match a.Metadata.Get "ActionType" with
    | none => some (.error (.ExecutionError "ActionType not found"))
    | some v =>
      match v.asStr with
      | none => some (.error (.ExecutionError "ActionType is not a string"))
      | some actionType =>
        match CheckLicense a with
        | .error e => some (.error e)
        | .ok _ =>
          match (HandleDelay a.Metadata).1 with
          | .error e => some (.error e)
          | .ok _ =>
            match (ExecuteHooksT a.Metadata ctx).1 with
            | .error e => some (.error e)
            | .ok _ =>
              match ExecuteFunction a actionType with
              | .error e => some (.error e)
              | .ok _ =>
                match a.Metadata.Get "NextAction" with
                | none => some (.ok ())
                | some nextJson =>
                  match parse nextJson with
                  | .error e =>
                    some (.error (.ExecutionError ("Failed to parse NextAction: " ++ e)))
                  | .ok next => ExecuteFuel parse fuel next ctx

/-! ## The monolithic draft `Source/Queue.rs`

The earlier draft of the same engine. Its `Action::Execute` additionally
performs the `CommandingOfficer` license check, and it uses `unwrap()` where
the Sequence core uses `ok_or_else`/`unwrap_or`; a panic is modelled as
`Option.none`. -/

namespace QueueDraft

/-- `Plan` of `Source/Queue.rs`: signature and function maps (`HashMap`s). -/
structure Plan where
  Signatures : List (String × Echo.Signature)
  Functions : List (String × OpFn)

/-- `Plan::New`. -/
def Plan.New : Plan := ⟨[], []⟩

/-- `Plan::AddSignature`: inserts/overwrites the signature under its name. -/
def Plan.AddSignature (p : Plan) (sig : Echo.Signature) : Plan :=
  { p with Signatures := insertA sig.Name sig p.Signatures }

/-- `Plan::AddFunction`: errs when no signature exists for the name (the map is
left unchanged); otherwise inserts the function, overwriting any previous one.
The pair carries the state after the call together with the error, if any. -/
def Plan.AddFunction (p : Plan) (name : String) (fn : OpFn) : Plan × Option String :=
  match p.Signatures.lookup name with
  | some _ => ({ p with Functions := insertA name fn p.Functions }, none)
  | none => (p, some ("No signature found for function: " ++ name))

/-- `Plan::GetFunction`. -/
def Plan.GetFunction (p : Plan) (name : String) : Option OpFn :=
  p.Functions.lookup name

/-- `ExecutionContext` of `Source/Queue.rs`: the hook table and configuration
(`Config` embedded as the `max_retries` setting when present and parsable;
the write-only `Cache` is not read by any embedded operation and is omitted). -/
structure Context where
  HookMap : List (String × Cycle)
  Config : Option Int

/-- `Action<T>` of `Source/Queue.rs` (its `Metadata` is a `VectorDatabase`,
semantically the same string-keyed JSON map as the Sequence core's `Vector`). -/
structure Action (T : Type) where
  Metadata : Vector
  Content : T
  LicenseSignal : Bool
  Plan : Plan

/-- `Action::New`: stamps `ActionType` and `License` metadata and a `true`
license signal. -/
def Action.New (actionType : String) (content : T) (plan : QueueDraft.Plan) : Action T :=
  { Metadata := (Vector.New.Insert "ActionType" (Json.str actionType)).Insert
      "License" (Json.str "valid")
    Content := content
    LicenseSignal := true
    Plan := plan }

/-- `Action::WithMetadata`. -/
def Action.WithMetadata (a : Action T) (key : String) (v : Json) : Action T :=
  { a with Metadata := a.Metadata.Insert key v }

/-- The hooks loop of `Action::Execute` in `Source/Queue.rs`: each element is
`Hook.as_str().unwrap()` (panic on a non-string, modelled as `none`), then
looked up in the hook table; missing names are skipped; a failing hook aborts. -/
def RunHooksQ (span : List (String × Cycle)) : List Json → Option (Except Error Unit)
  | [] => some (.ok ())
  | h :: rest =>
    match h.asStr with
    | none => none
    | some name =>
      match span.lookup name with
      | none => RunHooksQ span rest
      | some (.error e) => some (.error e)
      | some (.ok _) => RunHooksQ span rest

/-- `Action::Execute` of `Source/Queue.rs`: resolve `ActionType`
(`unwrap().as_str().unwrap()`), the `CommandingOfficer` license check
(`Officer.get("License").unwrap().as_str().unwrap() != "valid"`), the own
license signal check, delay (`Delay.as_u64().unwrap()`), hooks
(`Hooks.as_array().unwrap()`), dispatch through the `Plan`, then `NextAction`
(`serde_json::from_value(..).unwrap()`, so a parse failure panics). `none`
models a panic or fuel exhaustion. -/
def Execute (parse : Json → Except String (Action T)) :
    Nat → Action T → Context → Option (Except Error Unit)
  | 0, _, _ => none
  | fuel + 1, a, ctx =>
    match a.Metadata.Get "ActionType" with
    | none => none
    | some v =>
      match v.asStr with
      | none => none
      | some actionType =>
        let officerGate : Option (Except Error Unit) :=
          match a.Metadata.Get "CommandingOfficer" with
          | none => some (.ok ())
          | some officer =>
            match officer.get "License" with
            | none => none
            | some lv =>
              match lv.asStr with
              | none => none
              | some s =>
                if s ≠ "valid" then
                  some (.error (.InvalidLicense "Invalid commanding officer license"))
                else some (.ok ())
        match officerGate with
        | none => none
        | some (.error e) => some (.error e)
        | some (.ok _) =>
          if !a.LicenseSignal then
            some (.error (.InvalidLicense "Invalid action license"))
          else
            let delayGate : Option Unit :=
              match a.Metadata.Get "Delay" with
              | none => some ()
              | some d =>
                match d.asU64 with
                | none => none
                | some _ => some ()
            match delayGate with
            | none => none
            | some _ =>
              let hooksGate : Option (Except Error Unit) :=
                match a.Metadata.Get "Hooks" with
                | none => some (.ok ())
                | some hooks =>
                  match hooks.asArray with
                  | none => none
                  | some elems => RunHooksQ ctx.HookMap elems
              match hooksGate with
              | none => none
              | some (.error e) => some (.error e)
              | some (.ok _) =>
                match a.Plan.GetFunction actionType with
                | none =>
                  some (.error (.ExecutionError
                    ("No function found for action type: " ++ actionType)))
                | some fn =>
                  match fn [] with
                  | .error e => some (.error e)
                  | .ok _ =>
                    match a.Metadata.Get "NextAction" with
                    | none => some (.ok ())
                    | some nextJson =>
                      match parse nextJson with
                      | .error _ => none
                      | .ok next => Execute parse fuel next ctx

end QueueDraft

/-! ## Queues -/

/-- The FIFO production queue `Source/Struct/Sequence/Production.rs`: a
`VecDeque` of type-erased actions, head at the front. -/
structure Production (α : Type) where
  Line : List α

/-- `Production::New`. -/
def Production.New : Production α := ⟨[]⟩

/-- `Production::Take` (`push_back`): enqueues at the tail. -/
def Production.Take (q : Production α) (a : α) : Production α :=
  ⟨q.Line ++ [a]⟩

/-- `Production::Do` (`pop_front`): removes and returns the head, or `none` if
empty; returns the remaining queue alongside. -/
def Production.Do (q : Production α) : Option α × Production α :=
  match q.Line with
  | [] => (none, q)
  | x :: rest => (some x, ⟨rest⟩)

/-- Repeated `Production::Do` until the queue reports empty. -/
def Production.drainAux : Nat → Production α → List α
  | 0, _ => []
  | n + 1, q =>
    match q.Do with
    | (none, _) => []
    | (some x, q') => x :: Production.drainAux n q'

/-- The list of elements successive `Do` calls return, in order. -/
def Production.drain (q : Production α) : List α :=
  Production.drainAux q.Line.length q

/-- The work queue `Source/Struct/Job/Work.rs`: a `Vec` of actions. -/
structure Work (α : Type) where
  Queue : List α

/-- `Work::Fn` (the constructor): an empty queue. -/
def Work.Fn : Work α := ⟨[]⟩

/-- `Work::Assign` (`Vec::push`): appends at the end. -/
def Work.Assign (q : Work α) (a : α) : Work α :=
  ⟨q.Queue ++ [a]⟩

/-- `Work::Execute` (`Vec::pop`): removes and returns the LAST element, or
`none` if empty; returns the remaining queue alongside. -/
def Work.Execute (q : Work α) : Option α × Work α :=
  (q.Queue.getLast?, ⟨q.Queue.dropLast⟩)

/-- Repeated `Work::Execute` until the queue reports empty. -/
def Work.drainAux : Nat → Work α → List α
  | 0, _ => []
  | n + 1, q =>
    match q.Execute with
    | (none, _) => []
    | (some x, q') => x :: Work.drainAux n q'

/-- The list of elements successive `Execute` calls return, in order. -/
def Work.drain (q : Work α) : List α :=
  Work.drainAux q.Queue.length q

/-! ## The retry wrapper

`Struct::Again` of `Source/Struct/Sequence.rs`, textually identical to
`ActionProcessor::ExecuteWithRetry` of `Source/Queue.rs`. Each attempt calls
`Site.Receive(Action.Clone(), ..)` on a fresh duplicate of the action;
`receive k` models the outcome of the `(k+1)`-th such call (`k` equals the
`Retries` counter at the time of the call). `jitter r` models the value
`rand::thread_rng().gen_range(0..1000)` draws when `Retries` has been
incremented to `r`. -/

/-- The outcome of one `Again` call: final result, total number of attempts
made, and the requested backoff sleeps in whole seconds, in order. -/
structure RetryRun where
  result : Except Error Unit
  attempts : Nat
  sleeps : List Nat

/-- `Config::get_int("max_retries").unwrap_or(3) as u32`: the default 3 when
the setting is absent, with Rust's `as u32` truncation. -/
def maxRetriesOf (fate : Option Int) : Nat :=
  ((fate.getD 3).emod (2 ^ 32)).toNat

/-- The retry loop of `Struct::Again`, unrolled on `left = MaxRetries - Retries`
(the number of retries still allowed): attempt; on success stop; on failure
either give up (when `Retries >= MaxRetries`, i.e. `left = 0`) or increment
`Retries`, sleep `2^Retries + jitter Retries` seconds, and try again. -/
def AgainAux (receive : Nat → Except Error Unit) (jitter : Nat → Nat) :
    Nat → Nat → RetryRun
  | 0, r =>
    match receive r with
    | .ok _ => ⟨.ok (), 1, []⟩
    | .error e => ⟨.error e, 1, []⟩
  | left + 1, r =>
    match receive r with
    | .ok _ => ⟨.ok (), 1, []⟩
    | .error _ =>
      let rest := AgainAux receive jitter left (r + 1)
      ⟨rest.result, rest.attempts + 1, (2 ^ (r + 1) + jitter (r + 1)) :: rest.sleeps⟩

/-- `Struct::Again`: reads `max_retries` (default 3) from the configuration and
runs the retry loop from `Retries = 0`. -/
def Again (receive : Nat → Except Error Unit) (jitter : Nat → Nat)
    (fate : Option Int) : RetryRun :=
  AgainAux receive jitter (maxRetriesOf fate) 0

/-! ## Helper lemmas -/

theorem lookup_insertA_self {α : Type} (k : String) (v : α) (m : List (String × α)) :
    (insertA k v m).lookup k = some v := by
  induction m with
  | nil => simp [insertA]
  | cons p rest ih =>
    obtain ⟨k', v'⟩ := p
    by_cases h : k = k'
    · simp [insertA, h]
    · have hb : (k == k') = false := by simp [h]
      simp [insertA, h, List.lookup, hb, ih]

theorem lookup_insertA_ne {α : Type} (k k' : String) (v : α) (m : List (String × α))
    (h : k' ≠ k) : (insertA k v m).lookup k' = m.lookup k' := by
  induction m with
  | nil => simp [insertA, h]
  | cons p rest ih =>
    obtain ⟨k'', v''⟩ := p
    by_cases hk : k = k''
    · subst hk
      have hb : (k' == k) = false := by simp [h]
      simp [insertA, List.lookup, hb]
    · simp only [insertA, if_neg hk]
      by_cases hk2 : k' = k''
      · simp [List.lookup, hk2]
      · have hb : (k' == k'') = false := by simp [hk2]
        simp [List.lookup, hb, ih]

theorem get_insert_self (m : Vector) (k : String) (v : Json) :
    (m.Insert k v).Get k = some v :=
  lookup_insertA_self k v m.Entry

theorem get_insert_ne (m : Vector) (k k' : String) (v : Json) (h : k' ≠ k) :
    (m.Insert k v).Get k' = m.Get k' :=
  lookup_insertA_ne k k' v m.Entry h

theorem handleDelay_ok (m : Vector) : (HandleDelay m).1 = .ok () := by
  cases h : m.Get "Delay" <;> simp [HandleDelay, h]

/-! ## Claims -/

/-- C4: `AddFunction(X, f)` with no signature registered for `X` returns the
registration error and leaves the registry — in particular its function
table — unchanged; after a signature exists it succeeds, and it stores `f`
under `X`, silently overwriting any previously bound function. -/
theorem add_function_signature_guard (f : Formality) (name : String) (fn : OpFn) :
    (f.Signature.lookup name = none →
      f.Add name fn = (f, some ("No signature found for function: " ++ name)))
    ∧ (∀ sig, f.Signature.lookup name = some sig →
        f.Add name fn = ({ f with Function := insertA name fn f.Function }, none)
        ∧ (insertA name fn f.Function).lookup name = some fn) := by
  constructor
  · intro h
    simp [Formality.Add, h]
  · intro sig h
    exact ⟨by simp [Formality.Add, h], lookup_insertA_self name fn f.Function⟩

/-- C4 witness: on the empty registry, binding a function for `"X"` fails with
the registration error and leaves the registry unchanged. -/
theorem add_function_signature_guard_witness :
    Formality.New.Add "X" (fun _ => .ok Json.null)
      = (Formality.New, some "No signature found for function: X") :=
  (add_function_signature_guard Formality.New "X" (fun _ => .ok Json.null)).1 rfl

/-- C5: an Action built by `New` carries `ActionType` metadata and a `true`
license signal; and every Action whose `ActionType` metadata is a string but
whose license signal is `false` fails `Execute` with `InvalidLicense` — for
every context, registry, and remaining metadata, i.e. before the delay, hook,
and dispatch stages can contribute. -/
theorem license_signal_gate {T : Type} (parse : ParseNext T) (fuel : Nat)
    (a : Action T) (ctx : Life) (t : String) (c : T) (p : Formality) :
    ((Action.New t c p).Metadata.Get "ActionType" = some (Json.str t)
      ∧ (Action.New t c p).LicenseSignal = true)
    ∧ (a.Metadata.Get "ActionType" = some (Json.str t) → a.LicenseSignal = false →
        ExecuteFuel parse (fuel + 1) a ctx
          = some (.error (.InvalidLicense "Invalid action license"))) := by
  refine ⟨⟨rfl, rfl⟩, ?_⟩
  intro hT hL
  simp [ExecuteFuel, hT, Json.asStr, CheckLicense, hL]

/-- C5 witness: a `New`-built action whose license signal is then set to
`false` fails with `InvalidLicense` on an empty registry and context. -/
theorem license_signal_gate_witness :
    ExecuteFuel (T := Unit) (fun _ => .error "") 1
      { Action.New "X" () Formality.New with LicenseSignal := false } ⟨[], none⟩
      = some (.error (.InvalidLicense "Invalid action license")) :=
  (license_signal_gate (fun _ => .error "") 0
    { Action.New "X" () Formality.New with LicenseSignal := false }
    ⟨[], none⟩ "X" () Formality.New).2 rfl rfl

/-- C6: an Action with a valid license whose `ActionType` has a signature but
no bound function in its registry fails `Execute` with an `ExecutionError`
naming the action type, provided its hook stage succeeds (the delay stage
never fails). -/
theorem missing_function_error {T : Type} (parse : ParseNext T) (fuel : Nat)
    (a : Action T) (ctx : Life) (t : String) (sig : Signature)
    (hT : a.Metadata.Get "ActionType" = some (Json.str t))
    (hL : a.LicenseSignal = true)
    (_hS : a.Plan.Signature.lookup t = some sig)
    (hH : (ExecuteHooksT a.Metadata ctx).1 = .ok ())
    (hF : a.Plan.Remove t = none) :
    ExecuteFuel parse (fuel + 1) a ctx
      = some (.error (.ExecutionError ("No function found for action type: " ++ t))) := by
  simp [ExecuteFuel, hT, Json.asStr, CheckLicense, hL, handleDelay_ok, hH,
    ExecuteFunction, hF]

/-- C6 witness: an action whose type has a signature but no function fails
with the `ExecutionError` naming the type. -/
theorem missing_function_error_witness :
    ExecuteFuel (T := Unit) (fun _ => .error "") 1
      (Action.New "X" () (Formality.New.Sign ⟨"X", [], "Unit"⟩)) ⟨[], none⟩
      = some (.error (.ExecutionError "No function found for action type: X")) :=
  missing_function_error (fun _ => .error "") 0
    (Action.New "X" () (Formality.New.Sign ⟨"X", [], "Unit"⟩)) ⟨[], none⟩
    "X" ⟨"X", [], "Unit"⟩ rfl rfl rfl rfl rfl

/-- C7: the hooks stage processes the `Hooks` array in order — a name missing
from the hook table is silently skipped, a found hook is invoked (it enters
the invocation trace), and the first hook that fails aborts with exactly that
hook's error, invoking no later hook; and when the hooks stage of an action
fails, `Execute` fails with the hook's error (no dispatch stage runs). -/
theorem hooks_order_skip_abort (span : List (String × Cycle)) (h : Json)
    (rest : List Json) (e : Error) {T : Type} (parse : ParseNext T) (fuel : Nat)
    (a : Action T) (ctx : Life) (t : String) (e' : Error) :
    (span.lookup (h.asStr.getD "") = none →
      RunHooks span (h :: rest) = RunHooks span rest)
    ∧ (span.lookup (h.asStr.getD "") = some (.error e) →
        RunHooks span (h :: rest) = (.error e, [h.asStr.getD ""]))
    ∧ (span.lookup (h.asStr.getD "") = some (.ok ()) →
        RunHooks span (h :: rest)
          = ((RunHooks span rest).1, h.asStr.getD "" :: (RunHooks span rest).2))
    ∧ (a.Metadata.Get "ActionType" = some (Json.str t) → a.LicenseSignal = true →
        (ExecuteHooksT a.Metadata ctx).1 = .error e' →
        ExecuteFuel parse (fuel + 1) a ctx = some (.error e')) := by
  refine ⟨?_, ?_, ?_, ?_⟩
  · intro hnone
    simp [RunHooks, hnone]
  · intro herr
    simp [RunHooks, herr]
  · intro hok
    simp [RunHooks, hok]
  · intro hT hL hH
    simp [ExecuteFuel, hT, Json.asStr, CheckLicense, hL, handleDelay_ok, hH]

/-- C7 witness: a failing hook aborts the hooks stage with its own error and
a trace containing only that hook; the later hook name is never invoked. -/
theorem hooks_order_skip_abort_witness :
    RunHooks [("a", Except.error (Error.ExecutionError "hook failed"))]
        [Json.str "a", Json.str "b"]
      = (.error (.ExecutionError "hook failed"), ["a"]) :=
  (hooks_order_skip_abort [("a", Except.error (Error.ExecutionError "hook failed"))]
    (Json.str "a") [Json.str "b"] (Error.ExecutionError "hook failed")
    (T := Unit) (fun _ => .error "") 0
    (Action.New "X" () Formality.New) ⟨[], none⟩ "X"
    (Error.ExecutionError "hook failed")).2.1 rfl

/-- C10: the Sequence core's delay stage never fails — in particular, a
`Delay` metadata value that is not an unsigned integer is coerced to a sleep
of zero seconds — and `Execute` behaves exactly as if the delay were the
integer `0`, so the pipeline continues past the delay stage. -/
theorem delay_coerced_to_zero (m : Vector) (v : Json) {T : Type}
    (parse : ParseNext T) (fuel : Nat) (a : Action T) (ctx : Life) :
    ((HandleDelay m).1 = .ok ())
    ∧ (m.Get "Delay" = some v → v.asU64 = none → HandleDelay m = (.ok (), 0))
    ∧ (ExecuteFuel parse fuel a ctx
        = ExecuteFuel parse fuel (a.WithMetadata "Delay" (Json.num 0)) ctx) := by
  refine ⟨handleDelay_ok m, ?_, ?_⟩
  · intro hv hu
    simp [HandleDelay, hv, hu]
  · cases fuel with
    | zero => rfl
    | succ n =>
      have hAT : (a.Metadata.Insert "Delay" (Json.num 0)).Get "ActionType"
          = a.Metadata.Get "ActionType" :=
        get_insert_ne a.Metadata "Delay" "ActionType" (Json.num 0) (by decide)
      have hHooks : ExecuteHooksT (a.Metadata.Insert "Delay" (Json.num 0)) ctx
          = ExecuteHooksT a.Metadata ctx := by
        unfold ExecuteHooksT
        rw [get_insert_ne a.Metadata "Delay" "Hooks" (Json.num 0) (by decide)]
      have hNext : (a.Metadata.Insert "Delay" (Json.num 0)).Get "NextAction"
          = a.Metadata.Get "NextAction" :=
        get_insert_ne a.Metadata "Delay" "NextAction" (Json.num 0) (by decide)
      have hEF : ∀ s, ExecuteFunction
          { Metadata := a.Metadata.Insert "Delay" (Json.num 0), Content := a.Content,
            LicenseSignal := a.LicenseSignal, Plan := a.Plan } s = ExecuteFunction a s :=
        fun _ => rfl
      simp only [ExecuteFuel, Action.WithMetadata, hAT, hHooks, hNext,
        handleDelay_ok, CheckLicense, hEF]

/-- C10 witness: a string-valued `Delay` makes the delay stage succeed with a
zero-second sleep. -/
theorem delay_coerced_to_zero_witness :
    HandleDelay (Vector.New.Insert "Delay" (Json.str "oops")) = (.ok (), 0) :=
  (delay_coerced_to_zero (Vector.New.Insert "Delay" (Json.str "oops"))
    (Json.str "oops") (T := Unit) (fun _ => .error "") 0
    (Action.New "X" () Formality.New) ⟨[], none⟩).2.1 rfl rfl

theorem receive_error_of_not_ok (receive : Nat → Except Error Unit) (k : Nat)
    (h : (receive k).isOk = false) : ∃ e, receive k = .error e := by
  cases hk : receive k with
  | ok u => rw [hk] at h; simp [Except.isOk, Except.toBool] at h
  | error e => exact ⟨e, rfl⟩

/-- C2: with the configuration setting absent, `max_retries` defaults to 3; a
worker failing on every attempt is attempted exactly 4 times (1 initial + 3
retries) and the error of the 4th attempt is returned; a worker succeeding on
attempt 2 is attempted exactly twice and the wrapper reports success. -/
theorem retry_attempt_counts (rcvA rcvB : Nat → Except Error Unit)
    (jitA jitB : Nat → Nat)
    (hA : ∀ k, (rcvA k).isOk = false)
    (hB0 : (rcvB 0).isOk = false) (hB1 : rcvB 1 = .ok ()) :
    maxRetriesOf none = 3
    ∧ (Again rcvA jitA none).attempts = 4
    ∧ (Again rcvA jitA none).result = rcvA 3
    ∧ (Again rcvB jitB none).attempts = 2
    ∧ (Again rcvB jitB none).result = .ok () := by
  obtain ⟨e0, h0⟩ := receive_error_of_not_ok rcvA 0 (hA 0)
  obtain ⟨e1, h1⟩ := receive_error_of_not_ok rcvA 1 (hA 1)
  obtain ⟨e2, h2⟩ := receive_error_of_not_ok rcvA 2 (hA 2)
  obtain ⟨e3, h3⟩ := receive_error_of_not_ok rcvA 3 (hA 3)
  obtain ⟨f0, hf0⟩ := receive_error_of_not_ok rcvB 0 hB0
  have hM : maxRetriesOf none = 3 := rfl
  have hAgainA : Again rcvA jitA none = AgainAux rcvA jitA 3 0 := rfl
  have hAgainB : Again rcvB jitB none = AgainAux rcvB jitB 3 0 := rfl
  refine ⟨hM, ?_, ?_, ?_, ?_⟩ <;>
    simp [hAgainA, hAgainB, AgainAux, h0, h1, h2, h3, hf0, hB1]

/-- C2 witness: concrete always-failing and succeed-on-second-attempt workers
exhibit 4 and 2 attempts respectively under the default configuration. -/
theorem retry_attempt_counts_witness :
    (Again (fun _ => .error (.ExecutionError "boom")) (fun _ => 0) none).attempts = 4
    ∧ (Again (fun k => if k = 0 then .error (.ExecutionError "boom") else .ok ())
        (fun _ => 0) none).attempts = 2 := by
  have h := retry_attempt_counts (fun _ => .error (.ExecutionError "boom"))
    (fun k => if k = 0 then .error (.ExecutionError "boom") else .ok ())
    (fun _ => 0) (fun _ => 0) (fun _ => rfl) rfl rfl
  exact ⟨h.2.1, h.2.2.2.1⟩

theorem againAux_sleeps_fail (receive : Nat → Except Error Unit) (jitter : Nat → Nat)
    (hfail : ∀ k, (receive k).isOk = false) :
    ∀ left r, (AgainAux receive jitter left r).sleeps
      = (List.range' (r + 1) left).map (fun k => 2 ^ k + jitter k) := by
  intro left
  induction left with
  | zero =>
    intro r
    obtain ⟨e, he⟩ := receive_error_of_not_ok receive r (hfail r)
    simp [AgainAux, he]
  | succ n ih =>
    intro r
    obtain ⟨e, he⟩ := receive_error_of_not_ok receive r (hfail r)
    simp [AgainAux, he, ih (r + 1), List.range'_succ]

/-- C9 amended: for every failed attempt numbered `k` (1-based) with
`k ≤ max_retries`, the wrapper sleeps, before the next attempt, `2 ^ k + j`
seconds where `j` is the `gen_range(0..1000)` draw — so the jitter is a whole
number of seconds in `{0, …, 999}`, not a duration of 0–1000 milliseconds. -/
theorem backoff_sleep_durations (receive : Nat → Except Error Unit)
    (jitter : Nat → Nat) (fate : Option Int)
    (hfail : ∀ k, (receive k).isOk = false) (hj : ∀ i, jitter i < 1000) :
    (Again receive jitter fate).sleeps
      = (List.range' 1 (maxRetriesOf fate)).map (fun k => 2 ^ k + jitter k)
    ∧ ∀ d ∈ (Again receive jitter fate).sleeps,
        ∃ k j, 1 ≤ k ∧ k ≤ maxRetriesOf fate ∧ j < 1000 ∧ d = 2 ^ k + j := by
  have h := againAux_sleeps_fail receive jitter hfail (maxRetriesOf fate) 0
  refine ⟨h, ?_⟩
  intro d hd
  rw [show Again receive jitter fate = AgainAux receive jitter (maxRetriesOf fate) 0
    from rfl, h] at hd
  simp only [List.mem_map, List.mem_range'_1] at hd
  obtain ⟨k, ⟨hk1, hk2⟩, hdk⟩ := hd
  exact ⟨k, jitter k, hk1, by omega, hj k, hdk.symm⟩

/-- C9 witness: an always-failing worker with constant jitter draw 5 sleeps
`2^1 + 5`, `2^2 + 5`, `2^3 + 5` seconds under the default `max_retries = 3`. -/
theorem backoff_sleep_durations_witness :
    (Again (fun _ => .error (.ExecutionError "boom")) (fun _ => 5) none).sleeps
      = [2 ^ 1 + 5, 2 ^ 2 + 5, 2 ^ 3 + 5] :=
  ((backoff_sleep_durations (fun _ => .error (.ExecutionError "boom"))
    (fun _ => 5) none (fun _ => rfl) (fun _ => (by decide : (5 : Nat) < 1000))).1).trans rfl

/-- C9 counterexample: with the (legal) jitter draw 999, the first backoff
sleep is `2^1 + 999 = 1001` seconds; no jitter of at most 1000 milliseconds
added to `2^a` seconds (for any attempt number `a ≤ 3`) accounts for it — the
code passes the 0..1000 draw to `Duration::from_secs`, i.e. it adds it in
seconds, not milliseconds. -/
theorem backoff_jitter_units_cex :
    (Again (fun _ => .error (.ExecutionError "boom")) (fun _ => 999) none).sleeps.head?
      = some 1001
    ∧ ∀ a ≤ (3 : Nat), ∀ ms ≤ (1000 : Nat), 1001 * 1000 ≠ 2 ^ a * 1000 + ms := by
  refine ⟨rfl, ?_⟩
  intro a ha ms hms
  have h8 : 2 ^ a ≤ 2 ^ 3 := Nat.pow_le_pow_right (by omega) ha
  omega

theorem production_foldl_line {α : Type} (xs : List α) (q : Production α) :
    (xs.foldl Production.Take q).Line = q.Line ++ xs := by
  induction xs generalizing q with
  | nil => simp
  | cons x rest ih => simp [Production.Take, ih, List.append_assoc]

theorem production_drain_line {α : Type} (xs : List α) :
    Production.drain ⟨xs⟩ = xs := by
  show Production.drainAux xs.length ⟨xs⟩ = xs
  induction xs with
  | nil => rfl
  | cons x rest ih => simpa [Production.drainAux, Production.Do] using ih

theorem work_foldl_queue {α : Type} (ys : List α) (q : Work α) :
    (ys.foldl Work.Assign q).Queue = q.Queue ++ ys := by
  induction ys generalizing q with
  | nil => simp
  | cons y rest ih => simp [Work.Assign, ih, List.append_assoc]

theorem work_drain_queue {α : Type} (ys : List α) :
    Work.drain ⟨ys⟩ = ys.reverse := by
  induction ys using List.reverseRecOn with
  | nil => rfl
  | append_singleton zs z ih =>
    show Work.drainAux (zs ++ [z]).length ⟨zs ++ [z]⟩ = (zs ++ [z]).reverse
    rw [show (zs ++ [z]).length = zs.length + 1 by simp]
    simp only [Work.drainAux, Work.Execute, List.getLast?_concat, List.dropLast_concat]
    rw [show Work.drainAux zs.length ⟨zs⟩ = Work.drain ⟨zs⟩ from rfl, ih]
    simp

/-- C3 amended: the Sequence core's Production queue is strict FIFO — actions
enqueued with `Take` in order come back from successive `Do` calls in the same
order, and `Do` on an empty queue returns `None` without blocking; the Job
variant's Work queue (`Vec::push`/`Vec::pop`) instead returns actions in LIFO
(reverse arrival) order, with `Execute` on an empty queue returning `None`. -/
theorem production_fifo_job_lifo (α : Type) (xs ys : List α) :
    Production.drain (xs.foldl Production.Take Production.New) = xs
    ∧ (Production.New : Production α).Do = (none, Production.New)
    ∧ Work.drain (ys.foldl Work.Assign Work.Fn) = ys.reverse
    ∧ (Work.Fn : Work α).Execute = (none, Work.Fn) := by
  refine ⟨?_, rfl, ?_, rfl⟩
  · have h : (xs.foldl Production.Take Production.New) = ⟨xs⟩ := by
      have := production_foldl_line xs (Production.New : Production α)
      cases hq : xs.foldl Production.Take (Production.New : Production α)
      rw [hq] at this
      simp only [Production.New] at this ⊢
      exact congrArg Production.mk this
    rw [h, production_drain_line]
  · have h : (ys.foldl Work.Assign Work.Fn) = ⟨ys⟩ := by
      have := work_foldl_queue ys (Work.Fn : Work α)
      cases hq : ys.foldl Work.Assign (Work.Fn : Work α)
      rw [hq] at this
      simp only [Work.Fn] at this ⊢
      exact congrArg Work.mk this
    rw [h, work_drain_queue]

/-- C3 counterexample: assigning `"A"`, `"B"`, `"C"` to the Job Work queue and
executing until empty yields `["C", "B", "A"]`, not the FIFO order
`["A", "B", "C"]` the claim states. -/
theorem job_work_queue_lifo_cex :
    Work.drain (((Work.Fn.Assign "A").Assign "B").Assign "C") = ["C", "B", "A"]
    ∧ (["C", "B", "A"] : List String) ≠ ["A", "B", "C"] :=
  ⟨rfl, by decide⟩

/-- C1 amended (the check as implemented in `Source/Queue.rs`): in the
monolithic draft's `Action::Execute`, when metadata carries a
`CommandingOfficer` entry whose nested `License` field is a string other than
`"valid"`, `Execute` fails with `InvalidLicense("Invalid commanding officer
license")` — unconditionally before dispatch: for every registry, hook table,
delay value, own license signal, and chained action. (The dedup'd Sequence
core performs no such check; see the counterexample.) -/
theorem commanding_officer_check_queue_draft {T : Type}
    (parse : Json → Except String (QueueDraft.Action T)) (fuel : Nat)
    (a : QueueDraft.Action T) (ctx : QueueDraft.Context) (t : String)
    (officer : Json) (s : String)
    (hT : a.Metadata.Get "ActionType" = some (Json.str t))
    (hO : a.Metadata.Get "CommandingOfficer" = some officer)
    (hL : officer.get "License" = some (Json.str s))
    (hs : s ≠ "valid") :
    QueueDraft.Execute parse (fuel + 1) a ctx
      = some (.error (.InvalidLicense "Invalid commanding officer license")) := by
  simp [QueueDraft.Execute, hT, Json.asStr, hO, hL, hs]

/-- C1 witness: a concrete Queue-draft action supervised by an officer whose
license reads `"revoked"` fails with the commanding-officer error. -/
theorem commanding_officer_check_queue_draft_witness :
    QueueDraft.Execute (T := Unit) (fun _ => .error "") 1
      ((QueueDraft.Action.New "X" () QueueDraft.Plan.New).WithMetadata
        "CommandingOfficer" (Json.obj [("License", Json.str "revoked")]))
      ⟨[], none⟩
      = some (.error (.InvalidLicense "Invalid commanding officer license")) :=
  commanding_officer_check_queue_draft (fun _ => .error "") 0
    ((QueueDraft.Action.New "X" () QueueDraft.Plan.New).WithMetadata
      "CommandingOfficer" (Json.obj [("License", Json.str "revoked")]))
    ⟨[], none⟩ "X" (Json.obj [("License", Json.str "revoked")]) "revoked"
    rfl rfl rfl (by decide)

/-- C1 counterexample: in the dedup'd Sequence core, `CheckLicense` inspects
only the action's own license signal; a concrete action whose
`CommandingOfficer` metadata has `License = "revoked"` (which is not
`"valid"`) nevertheless executes successfully instead of failing with
`InvalidLicense`, so the claim's unconditional check does not hold of every
`Execute` in the sources. -/
theorem commanding_officer_check_missing_in_core :
    (Action.WithMetadata
        (Action.New "X" ()
          ((Formality.New.Sign ⟨"X", [], "Unit"⟩).Add "X" (fun _ => .ok Json.null)).1)
        "CommandingOfficer"
        (Json.obj [("License", Json.str "revoked")])).Metadata.Get "CommandingOfficer"
      = some (Json.obj [("License", Json.str "revoked")])
    ∧ (Json.obj [("License", Json.str "revoked")]).get "License"
        = some (Json.str "revoked")
    ∧ ("revoked" : String) ≠ "valid"
    ∧ ExecuteFuel (fun _ => .error "") 1
        (Action.WithMetadata
          (Action.New "X" ()
            ((Formality.New.Sign ⟨"X", [], "Unit"⟩).Add "X" (fun _ => .ok Json.null)).1)
          "CommandingOfficer"
          (Json.obj [("License", Json.str "revoked")]))
        ⟨[], none⟩
      = some (.ok ()) :=
  ⟨rfl, rfl, by decide, rfl⟩

/-- C8: when every earlier stage of an action succeeds — `ActionType` resolves,
the license holds, the hooks pass, the registered function returns a value —
and its `NextAction` metadata parses into a chained action of the same payload
type, the outer `Execute`'s result is exactly the chained action's full
pipeline run with the same context: the chained action's failure is returned
as the outer failure, and its success as the outer success. -/
theorem next_action_chaining {T : Type} (parse : ParseNext T) (fuel : Nat)
    (a : Action T) (ctx : Life) (t : String) (fn : OpFn) (v nextJson : Json)
    (next : Action T)
    (hT : a.Metadata.Get "ActionType" = some (Json.str t))
    (hL : a.LicenseSignal = true)
    (hH : (ExecuteHooksT a.Metadata ctx).1 = .ok ())
    (hfn : a.Plan.Remove t = some fn)
    (hv : fn [] = .ok v)
    (hN : a.Metadata.Get "NextAction" = some nextJson)
    (hp : parse nextJson = .ok next) :
    ExecuteFuel parse (fuel + 1) a ctx = ExecuteFuel parse fuel next ctx := by
  simp [ExecuteFuel, hT, Json.asStr, CheckLicense, hL, handleDelay_ok, hH,
    ExecuteFunction, hfn, Argument, ResultFn, hv, hN, hp]

/-- C8 witness: an action chained (via `NextAction`) to an action whose license
signal is `false` reports the chained action's `InvalidLicense` failure as its
own result. -/
theorem next_action_chaining_witness :
    ExecuteFuel (T := Unit)
      (fun _ => .ok { Action.New "X" ()
        ((Formality.New.Sign ⟨"X", [], "Unit"⟩).Add "X" (fun _ => .ok Json.null)).1
        with LicenseSignal := false })
      2
      (Action.WithMetadata
        (Action.New "X" ()
          ((Formality.New.Sign ⟨"X", [], "Unit"⟩).Add "X" (fun _ => .ok Json.null)).1)
        "NextAction" (Json.str "serialized next action"))
      ⟨[], none⟩
      = some (.error (.InvalidLicense "Invalid action license")) :=
  (next_action_chaining
    (fun _ => .ok { Action.New "X" ()
      ((Formality.New.Sign ⟨"X", [], "Unit"⟩).Add "X" (fun _ => .ok Json.null)).1
      with LicenseSignal := false })
    1
    (Action.WithMetadata
      (Action.New "X" ()
        ((Formality.New.Sign ⟨"X", [], "Unit"⟩).Add "X" (fun _ => .ok Json.null)).1)
      "NextAction" (Json.str "serialized next action"))
    ⟨[], none⟩ "X" (fun _ => .ok Json.null) Json.null
    (Json.str "serialized next action")
    { Action.New "X" ()
      ((Formality.New.Sign ⟨"X", [], "Unit"⟩).Add "X" (fun _ => .ok Json.null)).1
      with LicenseSignal := false }
    rfl rfl rfl rfl rfl rfl rfl).trans rfl

end Echo
